import Mathlib

/-!
# Verification development for `gost`

Shallow embedding of

* `pkg/listener/ftcp/conn.go`   (the per-peer pseudo connection `serverConn`),
* `pkg/connector/relay/bind.go` (the relay bind negotiation),
* `pkg/config/parsing/chain.go` (the chain builder `ParseChain`),

followed by the theorems that settle the claims C1 .. C10.

Conventions.  A Go `error` is `Option String` (`none` is `nil`); a byte slice is a
`List Nat`; a buffered channel is the list of its queued elements, oldest first.
A `select` whose outcome depends on the scheduler takes the scheduler's choice as
an explicit argument.  A call that would block forever returns `none`.
-/

namespace ftcp

/-- A datagram payload (`[]byte`). -/
abbrev Payload := List Nat

/-- Go struct `serverConnConfig`.  The field `onClose` records whether the callback
is non-nil; its invocations are counted in `serverConn.onCloseCalls`. -/
structure serverConnConfig where
  ttl : Nat
  qsize : Nat
  onClose : Bool
deriving DecidableEq, Repr

/-- Go struct `serverConn`.  `rc` is the content of the channel `rc` (capacity
`config.qsize`), `closed` tells whether the channel `closed` has been closed.
`onCloseCalls` counts the invocations of `config.onClose`, and `wire` lists the
packets handed to the embedded `net.PacketConn` (the shared channel), oldest first. -/
structure serverConn where
  raddr : String
  rc : List Payload
  fresh : Int
  closed : Bool
  config : serverConnConfig
  onCloseCalls : Nat
  wire : List (Payload × String)
deriving DecidableEq, Repr

/-- Go `newServerConn`: `nil` when `conn` or `raddr` is nil, the zero config when `cfg` is
nil.  The goroutine `ttlWait` it starts is the `watchdog` flag of `System` below. -/
def newServerConn (conn : Option Unit) (raddr : Option String)
    (cfg : Option serverConnConfig) : Option serverConn :=
  match conn, raddr with
  | some _, some ra =>
    let cfg := cfg.getD { ttl := 0, qsize := 0, onClose := false }
    some { raddr := ra, rc := [], fresh := 0, closed := false, config := cfg,
           onCloseCalls := 0, wire := [] }
  | _, _ => none

/-- Go `serverConn.send`, with no reader blocked in `ReadFrom`: the non-blocking
channel send succeeds exactly when the buffer holds fewer than `qsize` payloads. -/
def send (c : serverConn) (b : Payload) : serverConn × Option String :=
  if c.rc.length < c.config.qsize then
    ({ c with rc := c.rc ++ [b] }, none)
  else
    (c, some "queue is full")

/-- Go builtin `copy(dst, src)`: the new content of `dst` and the number of bytes copied. -/
def copy (dst src : Payload) : Payload × Nat :=
  let n := min dst.length src.length
  (src.take n ++ dst.drop n, n)

/-- What a `ReadFrom` call returns: the caller's buffer after the call, and the
named results `n`, `addr`, `err`. -/
structure ReadResult where
  b : Payload
  n : Nat
  addr : Option String
  err : Option String
deriving DecidableEq, Repr

/-- Go `serverConn.ReadFrom`.  `pickData` is the scheduler's choice when both cases of
the `select` are ready (a payload is queued and `closed` is closed); the result is
`none` when neither is ready and the call blocks. -/
def ReadFrom (c : serverConn) (b : Payload) (pickData : Bool) :
    Option (serverConn × ReadResult) :=
  let recv (bb : Payload) (rest : List Payload) : serverConn × ReadResult :=
    let r := copy b bb
    ({ c with rc := rest, fresh := 1 },
     { b := r.1, n := r.2, addr := some c.raddr, err := none })
  let shut : serverConn × ReadResult :=
    (c, { b := b, n := 0, addr := none, err := some "read from closed connection" })
  match c.rc, c.closed with
  | bb :: rest, true => if pickData then some (recv bb rest) else some shut
  | bb :: rest, false => some (recv bb rest)
  | [], true => some shut
  | [], false => none

/-- Go `serverConn.Read`: `ReadFrom` with the address dropped. -/
def Read (c : serverConn) (b : Payload) (pickData : Bool) :
    Option (serverConn × Payload × Nat × Option String) :=
  (ReadFrom c b pickData).map fun r => (r.1, r.2.b, r.2.n, r.2.err)

/-- Go `serverConn.Write`: `c.WriteTo(b, c.raddr)` on the embedded `net.PacketConn`.
`pc` is what that channel's `WriteTo` returns for a packet and a destination. -/
def Write (pc : Payload → String → Nat × Option String) (c : serverConn) (b : Payload) :
    serverConn × Nat × Option String :=
  ({ c with wire := c.wire ++ [(b, c.raddr)] }, pc b c.raddr)

/-- Go `serverConn.Close` (the mutex serialises callers, so a call is one atomic step). -/
def Close (c : serverConn) : serverConn × Option String :=
  if c.closed then
    (c, some "connection is closed")
  else
    ({ c with
        onCloseCalls := if c.config.onClose then c.onCloseCalls + 1 else c.onCloseCalls,
        closed := true },
     none)

/-- Go `serverConn.RemoteAddr`. -/
def RemoteAddr (c : serverConn) : String := c.raddr

/-- The case of the `select` in `ttlWait` that fires in one iteration of its loop. -/
inductive WaitCase where
  | ticker
  | closed
deriving DecidableEq, Repr

/-- One iteration of the loop of Go `serverConn.ttlWait`; the `Bool` tells whether the
loop goes on.  The case `closed` can only fire once `c.closed` holds. -/
def ttlWait (c : serverConn) : WaitCase → serverConn × Bool
  | .ticker =>
    -- atomic.CompareAndSwapInt32(&c.fresh, 1, 0)
    if c.fresh = 1 then ({ c with fresh := 0 }, true)
    else ((Close c).1, false)
  | .closed => (c, false)

/-- A call made on the connection by its users: the listener (`send`) or the
application (`ReadFrom`, `Write`, `Close`). -/
inductive Call where
  | send (p : Payload)
  | read (b : Payload) (pickData : Bool)
  | write (b : Payload)
  | close
deriving DecidableEq, Repr

/-- An event of an execution: a call, the ticker of the watchdog firing, or the
watchdog taking the `closed` case of its `select`. -/
inductive Event where
  | call (c : Call)
  | tick
  | quit
deriving DecidableEq, Repr

/-- A connection together with its watchdog goroutine.  `watchdog` tells whether
`ttlWait` is still running; `okReads` counts the `ReadFrom` calls that returned data. -/
structure System where
  conn : serverConn
  watchdog : Bool
  okReads : Nat
deriving DecidableEq, Repr

/-- The system right after `newServerConn`. -/
def System.start (c : serverConn) : System :=
  { conn := c, watchdog := true, okReads := 0 }

/-- Effect of one call.  A `ReadFrom` that blocks leaves the state as it is; every
`Write` is answered by the channel with the full length and no error. -/
def doCall (s : System) : Call → System
  | .send p => { s with conn := (send s.conn p).1 }
  | .read b pick =>
    match ReadFrom s.conn b pick with
    | some (c, r) =>
      { s with conn := c, okReads := if r.err = none then s.okReads + 1 else s.okReads }
    | none => s
  | .write b => { s with conn := (Write (fun p _ => (p.length, none)) s.conn b).1 }
  | .close => { s with conn := (Close s.conn).1 }

/-- Effect of one event.  The ticker case runs while the watchdog is alive; the
`closed` case runs while it is alive and the connection is closed. -/
def step (s : System) : Event → System
  | .call c => doCall s c
  | .tick =>
    if s.watchdog then
      let r := ttlWait s.conn .ticker
      { s with conn := r.1, watchdog := r.2 }
    else s
  | .quit =>
    if s.watchdog && s.conn.closed then
      let r := ttlWait s.conn .closed
      { s with conn := r.1, watchdog := r.2 }
    else s

/-- Run a list of events. -/
def exec (s : System) (evs : List Event) : System := evs.foldl step s

/-- Timed execution.  The ticker of a connection with TTL `T` fires at the instants
`T, 2T, 3T, ...`; `sched t` lists the calls made at instant `t`, which run before the
tick of that instant.  `stateAt T sched s n` is the state after instant `n`. -/
def stateAt (T : Nat) (sched : Nat → List Call) (s : System) : Nat → System
  | 0 => s
  | n + 1 =>
    let s1 := (sched (n + 1)).foldl doCall (stateAt T sched s n)
    if T ∣ (n + 1) then step s1 .tick else s1

/-- Invariant of the executions of a connection with configuration `cfg`: the
configuration stays, a stopped watchdog means a closed connection, and `onClose` has
run once if the connection is closed and the callback is non-nil, and not at all
otherwise. -/
def System.Inv (cfg : serverConnConfig) (s : System) : Prop :=
  s.conn.config = cfg ∧
  (s.watchdog = false → s.conn.closed = true) ∧
  s.conn.onCloseCalls = (if s.conn.closed then (if cfg.onClose then 1 else 0) else 0)

/-- A schedule with TTL 4 in mind: a payload arrives and is read at instant 1, and
then at the instants 7, 11, 15, ... (once between any two ticks from instant 7 on). -/
def sparseReads (t : Nat) : List Call :=
  if t = 1 ∨ (7 ≤ t ∧ t % 4 = 3) then [.send [1], .read [0] true] else []

end ftcp

/-! ## `pkg/connector/relay/bind.go` -/

namespace relay

/-- Constant `Version1` of the library github.com/go-gost/relay. -/
def Version1 : Nat := 1

/-- Constant `StatusOK` of the relay library. -/
def StatusOK : Nat := 0

/-- Command `BIND` of the relay library. -/
def BIND : Nat := 0x02

/-- Flag `FUDP` (UDP over relay) of the relay library. -/
def FUDP : Nat := 0x80

/-- Feature type tag `FeatureUserAuth` of the relay library. -/
def FeatureUserAuth : Nat := 0x01

/-- Feature type tag `FeatureAddr` of the relay library. -/
def FeatureAddr : Nat := 0x02

/-- The interface `relay.Feature`: the two variants the connector uses, and any other
implementation, which only shows its type tag. -/
inductive Feature where
  | UserAuthFeature (Username Password : String)
  | AddrFeature (AType : Nat) (Host : String) (Port : Nat)
  | other (tag : Nat)
deriving DecidableEq, Repr

/-- Method `Type()` of a feature. -/
def Feature.Type_ : Feature → Nat
  | .UserAuthFeature _ _ => FeatureUserAuth
  | .AddrFeature _ _ _ => FeatureAddr
  | .other tag => tag

/-- Go struct `relay.Request`. -/
structure Request where
  Version : Nat
  Flags : Nat
  Features : List Feature
deriving DecidableEq, Repr

/-- Go struct `relay.Response`. -/
structure Response where
  Version : Nat
  Status : Nat
  Features : List Feature
deriving DecidableEq, Repr

/-- What the peer has in store for one `Response.ReadFrom`: a read or decoding error, or
a response. -/
inductive Reply where
  | fail (err : String)
  | resp (r : Response)
deriving DecidableEq, Repr

/-- The `net.Conn` handed to `Bind`, seen through the relay codec: the requests
written to it so far, the error of the next write (if it is to fail), and what the
successive reads will yield. -/
structure Conn where
  written : List Request
  writeErr : Option String
  replies : List Reply
deriving DecidableEq, Repr

/-- `Request.WriteTo(conn)`: the request reaches the connection unless the write fails. -/
def Request.WriteTo (req : Request) (conn : Conn) : Conn × Option String :=
  match conn.writeErr with
  | some e => (conn, some e)
  | none => ({ conn with written := conn.written ++ [req] }, none)

/-- `Response.ReadFrom(conn)`: consumes one reply; an exhausted connection yields `EOF`. -/
def Response.ReadFrom (conn : Conn) : Conn × Except String Response :=
  match conn.replies with
  | [] => (conn, .error "EOF")
  | .fail e :: rest => ({ conn with replies := rest }, .error e)
  | .resp r :: rest => ({ conn with replies := rest }, .ok r)

/-- Go `url.Userinfo`. -/
structure Userinfo where
  username : String
  password : String
  passwordSet : Bool
deriving DecidableEq, Repr

/-- Go `(*url.Userinfo).Username`. -/
def Userinfo.Username (u : Userinfo) : String := u.username

/-- Go `(*url.Userinfo).Password`. -/
def Userinfo.Password (u : Userinfo) : String × Bool := (u.password, u.passwordSet)

/-- A `net.Addr` as the resolvers return it. -/
inductive Addr where
  | TCPAddr (IP : String) (Port : Nat)
  | UDPAddr (IP : String) (Port : Nat)
deriving DecidableEq, Repr

/-- Go `net.JoinHostPort`: a host containing a colon is put in brackets. -/
def JoinHostPort (host port : String) : String :=
  if host.contains ':' then "[" ++ host ++ "]:" ++ port else host ++ ":" ++ port

/-- Go `strconv.Itoa` on a non-negative number. -/
def Itoa (n : Nat) : String := toString n

/-- What `bind.go` takes from outside this package: `lookup` is the resolution of a
non-empty address by the Go library (host/port splitting, port and host lookup),
`ParseFrom` is the state of a zero `AddrFeature` after `ParseFrom(address)` (its error
is ignored by the caller), `ServerSession` is `mux.ServerSession`. -/
structure World where
  lookup : String → String → Except String (String × Nat)
  ParseFrom : String → Feature
  ServerSession : Conn → Except String Nat

/-- Go `net.ResolveTCPAddr`: an unknown network is an error, the empty address
resolves to the zero address without any lookup, anything else is looked up. -/
def ResolveTCPAddr (w : World) (network address : String) : Except String Addr :=
  if network = "tcp" ∨ network = "tcp4" ∨ network = "tcp6" ∨ network = "" then
    if address = "" then .ok (.TCPAddr "" 0)
    else match w.lookup network address with
      | .ok (ip, port) => .ok (.TCPAddr ip port)
      | .error e => .error e
  else .error ("unknown network " ++ network)

/-- Go `net.ResolveUDPAddr`, as `ResolveTCPAddr`. -/
def ResolveUDPAddr (w : World) (network address : String) : Except String Addr :=
  if network = "udp" ∨ network = "udp4" ∨ network = "udp6" ∨ network = "" then
    if address = "" then .ok (.UDPAddr "" 0)
    else match w.lookup network address with
      | .ok (ip, port) => .ok (.UDPAddr ip port)
      | .error e => .error e
  else .error ("unknown network " ++ network)

/-- Go struct `connector.BindOptions`. -/
structure BindOptions where
  Backlog : Nat
  UDPDataQueueSize : Nat
  UDPDataBufferSize : Nat
  UDPConnTTL : Nat
deriving DecidableEq, Repr

/-- The listeners `Bind` returns: `tcpListener` with its address and mux session, or the
listener made by `udp.NewListener` from the connection, the address and the options. -/
inductive Listener where
  | tcpListener (addr : Addr) (session : Nat)
  | udpListener (conn : Conn) (addr : Addr) (backlog queueSize bufferSize ttl : Nat)
deriving DecidableEq, Repr

/-- Go struct `relayConnector`: of its options only `Auth` is used here. -/
structure relayConnector where
  Auth : Option Userinfo
deriving DecidableEq, Repr

/-- The loop of `bind` over `resp.Features`: the joined host and port of an
`AddrFeature` overwrite `addr`, so the last one stays. -/
def scanFeatures (addr : String) : List Feature → String
  | [] => addr
  | f :: fs =>
    if f.Type_ = FeatureAddr then
      match f with
      | .AddrFeature _ host port => scanFeatures (JoinHostPort host (Itoa port)) fs
      | _ => scanFeatures addr fs
    else scanFeatures addr fs

/-- Go `relayConnector.bind`. -/
def relayConnector.bind (c : relayConnector) (w : World) (conn : Conn) (cmd : Nat)
    (network address : String) : Conn × Except String Addr :=
  let feats : List Feature :=
    match c.Auth with
    | some auth => [.UserAuthFeature auth.Username auth.Password.1]
    | none => []
  let fa := w.ParseFrom address
  let req : Request := { Version := Version1, Flags := cmd, Features := feats ++ [fa] }
  match req.WriteTo conn with
  | (conn1, some err) => (conn1, .error err)
  | (conn1, none) =>
    -- first reply, bind status
    match Response.ReadFrom conn1 with
    | (conn2, .error err) => (conn2, .error err)
    | (conn2, .ok resp) =>
      if resp.Status ≠ StatusOK then
        (conn2, .error ("bind on " ++ address ++ "/" ++ network ++ " failed"))
      else
        let addr := scanFeatures "" resp.Features
        if network = "tcp" ∨ network = "tcp4" ∨ network = "tcp6" then
          (conn2, ResolveTCPAddr w network addr)
        else if network = "udp" ∨ network = "udp4" ∨ network = "udp6" then
          (conn2, ResolveUDPAddr w network addr)
        else
          (conn2, .error ("unknown network " ++ network))

/-- Go `relayConnector.bindTCP`. -/
def relayConnector.bindTCP (c : relayConnector) (w : World) (conn : Conn)
    (network address : String) : Conn × Except String Listener :=
  match c.bind w conn BIND network address with
  | (conn1, .error err) => (conn1, .error err)
  | (conn1, .ok laddr) =>
    match w.ServerSession conn1 with
    | .error err => (conn1, .error err)
    | .ok session => (conn1, .ok (.tcpListener laddr session))

/-- Go `relayConnector.bindUDP`. -/
def relayConnector.bindUDP (c : relayConnector) (w : World) (conn : Conn)
    (network address : String) (opts : BindOptions) : Conn × Except String Listener :=
  match c.bind w conn (FUDP ||| BIND) network address with
  | (conn1, .error err) => (conn1, .error err)
  | (conn1, .ok laddr) =>
    (conn1, .ok (.udpListener conn1 laddr opts.Backlog opts.UDPDataQueueSize
      opts.UDPDataBufferSize opts.UDPConnTTL))

/-- Go `relayConnector.Bind`. -/
def relayConnector.Bind (c : relayConnector) (w : World) (conn : Conn)
    (network address : String) (opts : List (BindOptions → BindOptions)) :
    Conn × Except String Listener :=
  let options : BindOptions := opts.foldl (fun o opt => opt o) ⟨0, 0, 0, 0⟩
  if network = "tcp" ∨ network = "tcp4" ∨ network = "tcp6" then
    c.bindTCP w conn network address
  else if network = "udp" ∨ network = "udp4" ∨ network = "udp6" then
    c.bindUDP w conn network address options
  else
    (conn, .error ("network " ++ network ++ " is unsupported"))

/-- A concrete world for examples: no host can be looked up, `ParseFrom` keeps the
address as the host, and the mux session always opens. -/
def offlineWorld : World :=
  { lookup := fun _ _ => .error "no such host",
    ParseFrom := fun address => .AddrFeature 0 address 0,
    ServerSession := fun _ => .ok 0 }

end relay

/-! ## `pkg/dialer/option.go` -/

namespace dialer

/-- A logger, reduced to the fields attached with `WithFields`. -/
abbrev Logger := List (String × String)

/-- Go struct `dialer.Options`; the TLS configuration is the handle the loader returned. -/
structure Options where
  Auth : Option relay.Userinfo
  TLSConfig : Option Nat
  Logger : Logger
deriving DecidableEq, Repr

/-- Go `dialer.AuthOption`. -/
def AuthOption (auth : Option relay.Userinfo) : Options → Options :=
  fun opts => { opts with Auth := auth }

/-- Go `dialer.TLSConfigOption`. -/
def TLSConfigOption (tlsConfig : Option Nat) : Options → Options :=
  fun opts => { opts with TLSConfig := tlsConfig }

/-- Go `dialer.LoggerOption`. -/
def LoggerOption (logger : Logger) : Options → Options :=
  fun opts => { opts with Logger := logger }

end dialer

/-! ## `pkg/config/parsing/chain.go` -/

namespace parsing

/-- Go struct `config.TLSConfig`. -/
structure TLSConfig where
  CertFile : String
  KeyFile : String
  CAFile : String
  Secure : Bool
  ServerName : String
deriving DecidableEq, Repr

/-- Go struct `config.AuthConfig`. -/
structure AuthConfig where
  Username : String
  Password : String
deriving DecidableEq, Repr

/-- Go struct `config.SelectorConfig`. -/
structure SelectorConfig where
  Strategy : String
  MaxFails : Nat
  FailTimeout : Nat
deriving DecidableEq, Repr

/-- Go structs `config.ConnectorConfig` and `config.DialerConfig` (same fields); a nil
`Metadata` map is `none`. -/
structure ComponentConfig where
  Type_ : String
  Auth : Option AuthConfig
  TLS : Option TLSConfig
  Metadata : Option (List (String × String))
deriving DecidableEq, Repr

/-- Go struct `config.NodeConfig`. -/
structure NodeConfig where
  Name : String
  Addr : String
  Bypass : String
  Resolver : String
  Hosts : String
  Interface : String
  Connector : ComponentConfig
  Dialer : ComponentConfig
deriving DecidableEq, Repr

/-- Go struct `config.HopConfig`. -/
structure HopConfig where
  Name : String
  Interface : String
  Selector : Option SelectorConfig
  Bypass : String
  Resolver : String
  Hosts : String
  Nodes : List NodeConfig
deriving DecidableEq, Repr

/-- Go struct `config.ChainConfig`. -/
structure ChainConfig where
  Name : String
  Selector : Option SelectorConfig
  Hops : List HopConfig
deriving DecidableEq, Repr

/-- A selector as `parseSelector` builds it. -/
structure Selector where
  Strategy : String
  MaxFails : Nat
  FailTimeout : Nat
deriving DecidableEq, Repr

/-- A connector or dialer as its registered constructor returns it: its type name and
the options it was given, applied in order to the zero options. -/
structure Component where
  Type_ : String
  options : dialer.Options
deriving DecidableEq, Repr

/-- Go struct `chain.Transport` after `WithConnector`, `WithDialer`, `WithAddr` and
`WithInterface`. -/
structure Transport where
  connector : Component
  dialer : Component
  addr : String
  ifceName : String
deriving DecidableEq, Repr

/-- Go struct `chain.Node`; `Bypass`, `Resolver` and `Hosts` are what the registries
return for the configured names, `Marker` is a fresh `FailMarker` (its failure count). -/
structure Node where
  Name : String
  Addr : String
  Bypass : Option Nat
  Resolver : Option Nat
  Hosts : Option Nat
  Marker : Nat
  Transport : Transport
deriving DecidableEq, Repr

/-- Go struct `chain.NodeGroup`. -/
structure NodeGroup where
  nodes : List Node
  selector : Option Selector
deriving DecidableEq, Repr

/-- Go `NodeGroup.AddNode`. -/
def NodeGroup.AddNode (g : NodeGroup) (node : Node) : NodeGroup :=
  { g with nodes := g.nodes ++ [node] }

/-- Go `NodeGroup.WithSelector`. -/
def NodeGroup.WithSelector (g : NodeGroup) (sel : Option Selector) : NodeGroup :=
  { g with selector := sel }

/-- Go struct `chain.Chain`. -/
structure Chain where
  groups : List NodeGroup
deriving DecidableEq, Repr

/-- Go `Chain.AddNodeGroup`. -/
def Chain.AddNodeGroup (c : Chain) (group : NodeGroup) : Chain :=
  { c with groups := c.groups ++ [group] }

/-- The collaborators of `ParseChain`: the TLS loader `tls_util.LoadClientConfig`, the
helpers `parseAuth` and `parseSelector` of the package, the `Init` of a connector and of
a dialer on its metadata, and the three registries of routing policies. -/
structure Env where
  LoadClientConfig : String → String → String → Bool → String → Except String Nat
  parseAuth : Option AuthConfig → Option relay.Userinfo
  parseSelector : Option SelectorConfig → Option Selector
  connectorInit : Component → List (String × String) → Option String
  dialerInit : Component → List (String × String) → Option String
  BypassRegistry : String → Option Nat
  ResolverRegistry : String → Option Nat
  HostsRegistry : String → Option Nat

/-- Go `Logger.WithFields`. -/
def WithFields (l : dialer.Logger) (fields : List (String × String)) : dialer.Logger :=
  l ++ fields

/-- The logger of a node: `chainLogger.WithFields` with the node, connector, dialer and
hop names. -/
def nodeLoggerOf (chainLogger : dialer.Logger) (hop : HopConfig) (v : NodeConfig) :
    dialer.Logger :=
  WithFields chainLogger
    [("kind", "node"), ("connector", v.Connector.Type_), ("dialer", v.Dialer.Type_),
     ("hop", hop.Name), ("node", v.Name)]

/-- The call of `tls_util.LoadClientConfig` for a connector or dialer configuration: a
nil `TLS` is replaced by the zero `TLSConfig`. -/
def loadTLS (env : Env) (cc : ComponentConfig) : Except String Nat :=
  let tlsCfg : TLSConfig := cc.TLS.getD ⟨"", "", "", false, ""⟩
  env.LoadClientConfig tlsCfg.CertFile tlsCfg.KeyFile tlsCfg.CAFile
    tlsCfg.Secure tlsCfg.ServerName

/-- The connector or dialer the registered constructor makes from the three options
`AuthOption`, `TLSConfigOption` and `LoggerOption` (connector and dialer options have
the same three fields). -/
def newComponent (env : Env) (cc : ComponentConfig) (tlsConfig : Nat)
    (logger : dialer.Logger) : Component :=
  { Type_ := cc.Type_,
    options := [dialer.AuthOption (env.parseAuth cc.Auth),
                dialer.TLSConfigOption (some tlsConfig),
                dialer.LoggerOption logger].foldl (fun o opt => opt o) ⟨none, none, []⟩ }

/-- The body of the inner loop of `ParseChain`, for the node `v` of the hop `hop`: the
node it adds to the group, or the error `ParseChain` returns. -/
def parseNode (env : Env) (chainLogger : dialer.Logger) (hop : HopConfig)
    (v : NodeConfig) : Except String Node :=
  let nodeLogger := nodeLoggerOf chainLogger hop v
  let connectorLogger := WithFields nodeLogger [("kind", "connector")]
  match loadTLS env v.Connector with
  | .error err => .error err
  | .ok tlsConfig =>
    let cr := newComponent env v.Connector tlsConfig connectorLogger
    match env.connectorInit cr (v.Connector.Metadata.getD []) with
    | some err => .error err
    | none =>
      let dialerLogger := WithFields nodeLogger [("kind", "dialer")]
      match loadTLS env v.Dialer with
      | .error err => .error err
      | .ok tlsConfig =>
        let d := newComponent env v.Dialer tlsConfig dialerLogger
        match env.dialerInit d (v.Dialer.Metadata.getD []) with
        | some err => .error err
        | none =>
          let bypass := if v.Bypass = "" then hop.Bypass else v.Bypass
          let resolver := if v.Resolver = "" then hop.Resolver else v.Resolver
          let hosts := if v.Hosts = "" then hop.Hosts else v.Hosts
          let ifce := if v.Interface = "" then hop.Interface else v.Interface
          let tr : Transport :=
            { connector := cr, dialer := d, addr := v.Addr, ifceName := ifce }
          .ok { Name := v.Name, Addr := v.Addr,
                Bypass := env.BypassRegistry bypass,
                Resolver := env.ResolverRegistry resolver,
                Hosts := env.HostsRegistry hosts,
                Marker := 0, Transport := tr }

/-- The inner loop of `ParseChain` (`for _, v := range hop.Nodes`), from the group built
so far. -/
def parseNodes (env : Env) (chainLogger : dialer.Logger) (hop : HopConfig)
    (group : NodeGroup) : List NodeConfig → Except String NodeGroup
  | [] => .ok group
  | v :: vs =>
    match parseNode env chainLogger hop v with
    | .error err => .error err
    | .ok node => parseNodes env chainLogger hop (group.AddNode node) vs

/-- The outer loop of `ParseChain` (`for _, hop := range cfg.Hops`), from the chain built
so far; `selector` is the chain-level selector. -/
def parseHops (env : Env) (chainLogger : dialer.Logger) (selector : Option Selector)
    (c : Chain) : List HopConfig → Except String Chain
  | [] => .ok c
  | hop :: hops =>
    match parseNodes env chainLogger hop ⟨[], none⟩ hop.Nodes with
    | .error err => .error err
    | .ok group =>
      let sel :=
        match env.parseSelector hop.Selector with
        | some s => some s
        | none => selector
      parseHops env chainLogger selector (c.AddNodeGroup (group.WithSelector sel)) hops

/-- Go `ParseChain`: the chain and the error it returns. -/
def ParseChain (env : Env) (cfg : Option ChainConfig) : Option Chain × Option String :=
  match cfg with
  | none => (none, none)
  | some cfg =>
    let chainLogger : dialer.Logger := [("kind", "chain"), ("chain", cfg.Name)]
    let selector := env.parseSelector cfg.Selector
    match parseHops env chainLogger selector ⟨[]⟩ cfg.Hops with
    | .error err => (none, some err)
    | .ok c => (some c, none)

/-- The node `v` of the hop `hop` fails with `err`: the TLS loading for its connector or
for its dialer returns `err`, or the `Init` of its connector or of its dialer does. -/
def nodeFailure (env : Env) (chainLogger : dialer.Logger) (hop : HopConfig) (v : NodeConfig)
    (err : String) : Prop :=
  loadTLS env v.Connector = .error err ∨
  (∃ t, loadTLS env v.Connector = .ok t ∧
    env.connectorInit
      (newComponent env v.Connector t
        (WithFields (nodeLoggerOf chainLogger hop v) [("kind", "connector")]))
      (v.Connector.Metadata.getD []) = some err) ∨
  loadTLS env v.Dialer = .error err ∨
  (∃ t, loadTLS env v.Dialer = .ok t ∧
    env.dialerInit
      (newComponent env v.Dialer t
        (WithFields (nodeLoggerOf chainLogger hop v) [("kind", "dialer")]))
      (v.Dialer.Metadata.getD []) = some err)

/-- An environment for examples: loading the certificate `missing.pem` fails, every
other loading and every `Init` succeeds, selectors are parsed field by field. -/
def brokenEnv : Env :=
  { LoadClientConfig := fun certFile _ _ _ _ =>
      if certFile = "missing.pem" then .error "open missing.pem: no such file or directory"
      else .ok 0,
    parseAuth := fun _ => none,
    parseSelector := fun sc => sc.map fun c => ⟨c.Strategy, c.MaxFails, c.FailTimeout⟩,
    connectorInit := fun _ _ => none,
    dialerInit := fun _ _ => none,
    BypassRegistry := fun _ => none,
    ResolverRegistry := fun _ => none,
    HostsRegistry := fun _ => none }

/-- A chain configuration with one hop holding one node called `name`, whose connector
uses the certificate `certFile`. -/
def oneNodeChain (name certFile : String) : ChainConfig :=
  { Name := "chain-0", Selector := some ⟨"round", 1, 30⟩,
    Hops := [{ Name := "hop-0", Interface := "", Selector := none, Bypass := "",
               Resolver := "", Hosts := "",
               Nodes := [{ Name := name, Addr := "192.0.2.1:8080", Bypass := "",
                           Resolver := "", Hosts := "", Interface := "",
                           Connector := ⟨"http", none, some ⟨certFile, "", "", false, ""⟩, none⟩,
                           Dialer := ⟨"tcp", none, none, none⟩ }] }] }

/-- The chain `ParseChain` builds in `brokenEnv` from `oneNodeChain "node-a" "ok.pem"`. -/
def oneNodeChainBuilt : Chain :=
  ⟨[⟨[⟨"node-a", "192.0.2.1:8080", none, none, none, 0,
       ⟨⟨"http", ⟨none, some 0,
          [("kind", "chain"), ("chain", "chain-0"), ("kind", "node"), ("connector", "http"),
           ("dialer", "tcp"), ("hop", "hop-0"), ("node", "node-a"), ("kind", "connector")]⟩⟩,
        ⟨"tcp", ⟨none, some 0,
          [("kind", "chain"), ("chain", "chain-0"), ("kind", "node"), ("connector", "http"),
           ("dialer", "tcp"), ("hop", "hop-0"), ("node", "node-a"), ("kind", "dialer")]⟩⟩,
        "192.0.2.1:8080", ""⟩⟩],
     some ⟨"round", 1, 30⟩⟩]⟩

end parsing

/-! ## Theorems: the pseudo connection -/

namespace ftcp

theorem Close_closed (c : serverConn) : (Close c).1.closed = true := by
  unfold Close
  by_cases h : c.closed = true
  · simp [h]
  · simp [h]

theorem Close_of_closed (c : serverConn) (h : c.closed = true) :
    Close c = (c, some "connection is closed") := by
  simp [Close, h]

theorem iterate_Close_of_closed (c : serverConn) (h : c.closed = true) (k : Nat) :
    (fun x => (Close x).1)^[k] c = c := by
  induction k with
  | zero => rfl
  | succ k ih => rw [Function.iterate_succ_apply, Close_of_closed c h]; exact ih

theorem Close_of_open (c : serverConn) (h : c.closed = false) :
    Close c = ({ c with closed := true,
                        onCloseCalls := c.onCloseCalls + (if c.config.onClose then 1 else 0) },
               none) := by
  unfold Close
  by_cases ho : c.config.onClose = true <;> simp [h, ho]

/-- C1: on an open connection the first `Close()` returns nil, runs `onClose` once when
it is non-nil (not at all when it is nil), sets the closed state and changes nothing
else; every later `Close()` returns "connection is closed" and leaves the state as it
is, so over any number of `Close()` calls `onClose` runs at most once. -/
theorem Close_exactly_once (c : serverConn) (h : c.closed = false) :
    Close c = ({ c with closed := true,
                        onCloseCalls := c.onCloseCalls + (if c.config.onClose then 1 else 0) },
               none) ∧
    (∀ k : Nat, Close ((fun x => (Close x).1)^[k] (Close c).1)
        = ((Close c).1, some "connection is closed")) ∧
    (∀ k : Nat, ((fun x => (Close x).1)^[k] c).onCloseCalls ≤ c.onCloseCalls + 1) := by
  have h1 := Close_of_open c h
  refine ⟨h1, ?_, ?_⟩
  · intro k
    rw [iterate_Close_of_closed _ (Close_closed c) k]
    exact Close_of_closed _ (Close_closed c)
  · intro k
    cases k with
    | zero => simp
    | succ k =>
      rw [Function.iterate_succ_apply, iterate_Close_of_closed _ (Close_closed c) k, h1]
      by_cases ho : c.config.onClose = true <;> simp [ho]

/-- Witness of C1 on a fresh connection with a callback. -/
theorem Close_exactly_once_witness :
    Close ⟨"peer", [], 0, false, ⟨5, 1, true⟩, 0, []⟩
      = (⟨"peer", [], 0, true, ⟨5, 1, true⟩, 1, []⟩, none) :=
  (Close_exactly_once ⟨"peer", [], 0, false, ⟨5, 1, true⟩, 0, []⟩ rfl).1

/-- C2: on an open connection with queue capacity at least 1, `send` enqueues at the
tail and returns nil while fewer than `qsize` payloads are queued, and returns "queue is
full" without touching the queue when `qsize` are queued; `ReadFrom` takes the oldest
queued payload, copies it into the buffer (all of it when the buffer is long enough),
sets `fresh` and returns the peer address; after a `send` the next `ReadFrom` still
yields the payload that was oldest; with capacity 1 two sends succeed then fail and the
read yields the first payload. -/
theorem send_ReadFrom_fifo (c : serverConn) (p b : Payload) (pick : Bool)
    (hopen : c.closed = false) (hq : 1 ≤ c.config.qsize) :
    (c.rc.length < c.config.qsize → send c p = ({ c with rc := c.rc ++ [p] }, none)) ∧
    (c.rc.length = c.config.qsize → send c p = (c, some "queue is full")) ∧
    (∀ bb rest, c.rc = bb :: rest →
      ReadFrom c b pick = some
        ({ c with rc := rest, fresh := 1 },
         { b := bb.take (min b.length bb.length) ++ b.drop (min b.length bb.length),
           n := min b.length bb.length, addr := some c.raddr, err := none }) ∧
      (bb.length ≤ b.length →
        ∃ r, ReadFrom c b pick = some r ∧ r.2.n = bb.length ∧ r.2.b.take r.2.n = bb)) ∧
    (c.rc.length ≤ c.config.qsize →
      ∃ bb r, (c.rc ++ [p]).head? = some bb ∧ ReadFrom (send c p).1 b pick = some r ∧
        r.2.err = none ∧ r.2.n = min b.length bb.length ∧ r.2.b.take r.2.n = bb.take r.2.n ∧
        r.1.rc = (send c p).1.rc.tail) ∧
    (c.rc = [] → c.config.qsize = 1 → ∀ p2 : Payload,
      (send c p).2 = none ∧ (send (send c p).1 p2).2 = some "queue is full" ∧
      ∃ r, ReadFrom (send (send c p).1 p2).1 b pick = some r ∧ r.2.err = none ∧
        r.2.n = min b.length p.length ∧ r.2.b.take r.2.n = p.take r.2.n ∧ r.1.rc = []) := by
  have hread : ∀ (c1 : serverConn) (bb : Payload) (rest : List Payload),
      c1.closed = false → c1.rc = bb :: rest →
      ReadFrom c1 b pick = some
        ({ c1 with rc := rest, fresh := 1 },
         { b := bb.take (min b.length bb.length) ++ b.drop (min b.length bb.length),
           n := min b.length bb.length, addr := some c1.raddr, err := none }) := by
    intro c1 bb rest h1 h2
    simp [ReadFrom, h1, h2, copy]
  have htake : ∀ bb : Payload,
      (bb.take (min b.length bb.length) ++ b.drop (min b.length bb.length)).take
        (min b.length bb.length) = bb.take (min b.length bb.length) := by
    intro bb
    rw [List.take_append_of_le_length (by simp [List.length_take])]
    simp [List.take_take]
  refine ⟨?_, ?_, ?_, ?_, ?_⟩
  · intro h; simp [send, h]
  · intro h; simp [send, h]
  · intro bb rest hrc
    refine ⟨hread c bb rest hopen hrc, ?_⟩
    intro hlen
    refine ⟨_, hread c bb rest hopen hrc, ?_, ?_⟩
    · simp [hlen]
    · simp only [htake]; simp [hlen]
  · intro hle
    by_cases hlt : c.rc.length < c.config.qsize
    · cases hrc : c.rc with
      | nil =>
        have hs : (send c p).1 = { c with rc := [p] } := by
          rw [send, if_pos hlt]; simp [hrc]
        have hr := hread { c with rc := [p] } p [] hopen rfl
        rw [← hs] at hr
        refine ⟨p, _, by simp, hr, rfl, rfl, htake p, ?_⟩
        simp [hs]
      | cons x xs =>
        have hs : (send c p).1 = { c with rc := x :: (xs ++ [p]) } := by
          rw [send, if_pos hlt]; simp [hrc]
        have hr := hread { c with rc := x :: (xs ++ [p]) } x (xs ++ [p]) hopen rfl
        rw [← hs] at hr
        refine ⟨x, _, by simp, hr, rfl, rfl, htake x, ?_⟩
        simp [hs]
    · have hfull : c.rc.length = c.config.qsize := by omega
      cases hrc : c.rc with
      | nil => rw [hrc] at hfull; simp at hfull; omega
      | cons x xs =>
        have hs : (send c p).1 = c := by rw [send, if_neg hlt]
        have hr := hread c x xs hopen hrc
        rw [← hs] at hr
        refine ⟨x, _, by simp, hr, rfl, rfl, htake x, ?_⟩
        simp [hs, hrc]
  · intro hrc hone p2
    have h1 : send c p = ({ c with rc := [p] }, none) := by simp [send, hrc, hone]
    have h2 : send { c with rc := [p] } p2 = ({ c with rc := [p] }, some "queue is full") := by
      simp [send, hone]
    refine ⟨by rw [h1], by rw [h1, h2], ?_⟩
    rw [h1, h2]
    exact ⟨_, hread _ p [] hopen rfl, rfl, rfl, htake p, rfl⟩

/-- Witness of C2: capacity 1, payloads `[1, 2]` then `[3]`. -/
theorem send_ReadFrom_fifo_witness :
    (send ⟨"peer", [], 0, false, ⟨5, 1, false⟩, 0, []⟩ [1, 2]).2 = none ∧
    (send (send ⟨"peer", [], 0, false, ⟨5, 1, false⟩, 0, []⟩ [1, 2]).1 [3]).2
      = some "queue is full" :=
  let h := (send_ReadFrom_fifo ⟨"peer", [], 0, false, ⟨5, 1, false⟩, 0, []⟩ [1, 2] [0, 0]
    true rfl (by decide)).2.2.2.2 rfl rfl [3]
  ⟨h.1, h.2.1⟩

/-- C3 fails as stated: after a successful `Close()` a `ReadFrom` may still take the
receive case of its `select` and return the queued payload `[7]` without error, and
`Write` hands the packet `[9]` to the shared channel and returns its result. -/
theorem closed_conn_counterexample :
    (Close ⟨"peer", [[7]], 0, false, ⟨5, 1, true⟩, 0, []⟩).2 = none ∧
    ReadFrom (Close ⟨"peer", [[7]], 0, false, ⟨5, 1, true⟩, 0, []⟩).1 [0] true
      = some (⟨"peer", [], 1, true, ⟨5, 1, true⟩, 1, []⟩, ⟨[7], 1, some "peer", none⟩) ∧
    Write (fun p _ => (p.length, none))
        (Close ⟨"peer", [[7]], 0, false, ⟨5, 1, true⟩, 0, []⟩).1 [9]
      = (⟨"peer", [[7]], 0, true, ⟨5, 1, true⟩, 1, [([9], "peer")]⟩, 1, none) := by
  refine ⟨rfl, rfl, rfl⟩

/-- C3, amended: on a closed connection `ReadFrom` fails with "read from closed
connection", returns no data and changes nothing whenever the queue is empty or the
`select` takes the closed case; with a payload queued the `select` may take the receive
case instead and the call returns that payload; `Write` has no closed check, it forwards
the packet with the peer address to the shared channel and returns what the channel
returns; `Close` reports "connection is closed". -/
theorem closed_conn_behaviour (c : serverConn) (b : Payload) (pick : Bool)
    (pc : Payload → String → Nat × Option String) (h : c.closed = true) :
    ((c.rc = [] ∨ pick = false) →
      ReadFrom c b pick = some (c, ⟨b, 0, none, some "read from closed connection"⟩) ∧
      Read c b pick = some (c, b, 0, some "read from closed connection")) ∧
    (∀ bb rest, c.rc = bb :: rest → pick = true →
      ReadFrom c b pick = some
        ({ c with rc := rest, fresh := 1 },
         ⟨(copy b bb).1, (copy b bb).2, some c.raddr, none⟩)) ∧
    Write pc c b = ({ c with wire := c.wire ++ [(b, c.raddr)] }, pc b c.raddr) ∧
    Close c = (c, some "connection is closed") := by
  refine ⟨?_, ?_, rfl, Close_of_closed c h⟩
  · intro hcase
    have hr : ReadFrom c b pick
        = some (c, ⟨b, 0, none, some "read from closed connection"⟩) := by
      rcases hcase with hrc | hp
      · simp [ReadFrom, hrc, h]
      · cases hrc : c.rc <;> simp [ReadFrom, hrc, h, hp]
    exact ⟨hr, by simp [Read, hr]⟩
  · intro bb rest hrc hp
    simp [ReadFrom, hrc, h, hp]

/-- Witness of the amended C3 on the connection closed in the counterexample. -/
theorem closed_conn_behaviour_witness :
    Close ⟨"peer", [[7]], 0, true, ⟨5, 1, true⟩, 1, []⟩
      = (⟨"peer", [[7]], 0, true, ⟨5, 1, true⟩, 1, []⟩, some "connection is closed") :=
  (closed_conn_behaviour ⟨"peer", [[7]], 0, true, ⟨5, 1, true⟩, 1, []⟩ [0] false
    (fun p _ => (p.length, none)) rfl).2.2.2

/-! ### Executions -/

theorem exec_append (s : System) (l1 l2 : List Event) :
    exec s (l1 ++ l2) = exec (exec s l1) l2 := by
  simp [exec, List.foldl_append]

theorem ReadFrom_ok_fresh (c : serverConn) (b : Payload) (pick : Bool)
    (r : serverConn × ReadResult) (h : ReadFrom c b pick = some r) (hok : r.2.err = none) :
    r.1.fresh = 1 ∧ r.1.closed = c.closed ∧ r.1.onCloseCalls = c.onCloseCalls ∧
    r.1.config = c.config := by
  unfold ReadFrom at h
  cases hrc : c.rc with
  | nil =>
    cases hcl : c.closed
    · simp [hrc, hcl] at h
    · simp [hrc, hcl] at h; subst h; simp at hok
  | cons bb rest =>
    cases hcl : c.closed
    · simp [hrc, hcl] at h; subst h; simp
    · cases pick
      · simp [hrc, hcl] at h; subst h; simp at hok
      · simp [hrc, hcl] at h; subst h; simp [hcl]

theorem ReadFrom_err_same (c : serverConn) (b : Payload) (pick : Bool)
    (r : serverConn × ReadResult) (h : ReadFrom c b pick = some r) (herr : r.2.err ≠ none) :
    r.1 = c := by
  unfold ReadFrom at h
  cases hrc : c.rc with
  | nil =>
    cases hcl : c.closed
    · simp [hrc, hcl] at h
    · simp [hrc, hcl] at h; subst h; rfl
  | cons bb rest =>
    cases hcl : c.closed
    · simp [hrc, hcl] at h; subst h; simp at herr
    · cases pick
      · simp [hrc, hcl] at h; subst h; rfl
      · simp [hrc, hcl] at h; subst h; simp at herr

/-- A call either leaves `okReads` and `fresh` as they are, or is a successful read:
`okReads` grows by one and `fresh` is 1. -/
theorem doCall_okReads (s : System) (c : Call) :
    ((doCall s c).okReads = s.okReads ∧ (doCall s c).conn.fresh = s.conn.fresh) ∨
    ((doCall s c).okReads = s.okReads + 1 ∧ (doCall s c).conn.fresh = 1) := by
  cases c with
  | send p =>
    left
    simp only [doCall, send]
    split <;> simp
  | read b pick =>
    simp only [doCall]
    cases hr : ReadFrom s.conn b pick with
    | none => left; simp
    | some r =>
      obtain ⟨c1, res⟩ := r
      by_cases hok : res.err = none
      · right
        have := ReadFrom_ok_fresh s.conn b pick (c1, res) hr hok
        simp only at this
        simp [hok, this.1]
      · left
        have := ReadFrom_err_same s.conn b pick (c1, res) hr hok
        simp at this
        simp [hok, this]
  | write b => left; simp [doCall, Write]
  | close =>
    left
    simp only [doCall, Close]
    split <;> simp

theorem step_okReads (s : System) (e : Event) (he : e ≠ .tick) :
    ((step s e).okReads = s.okReads ∧ (step s e).conn.fresh = s.conn.fresh) ∨
    ((step s e).okReads = s.okReads + 1 ∧ (step s e).conn.fresh = 1) := by
  cases e with
  | call c => exact doCall_okReads s c
  | tick => exact absurd rfl he
  | quit =>
    left
    simp only [step, ttlWait]
    split <;> simp

theorem exec_fresh_keep (l : List Event) (s : System) (hl : Event.tick ∉ l)
    (hf : s.conn.fresh = 1) : (exec s l).conn.fresh = 1 := by
  induction l generalizing s with
  | nil => simpa [exec] using hf
  | cons e l ih =>
    have he : e ≠ .tick := fun h => hl (by simp [h])
    have hl2 : Event.tick ∉ l := fun h => hl (by simp [h])
    have : (step s e).conn.fresh = 1 := by
      rcases step_okReads s e he with h | h
      · rw [h.2]; exact hf
      · exact h.2
    simpa [exec] using ih (step s e) hl2 this

theorem exec_okReads_le (l : List Event) (s : System) (hl : Event.tick ∉ l) :
    s.okReads ≤ (exec s l).okReads := by
  induction l generalizing s with
  | nil => simp [exec]
  | cons e l ih =>
    have he : e ≠ .tick := fun h => hl (by simp [h])
    have hl2 : Event.tick ∉ l := fun h => hl (by simp [h])
    have h1 := ih (step s e) hl2
    have h2 : (exec s (e :: l)) = exec (step s e) l := by simp [exec]
    rw [h2]
    rcases step_okReads s e he with h | h <;> omega

/-- Over events other than ticks, a successful read leaves `fresh` at 1. -/
theorem exec_fresh_of_read (l : List Event) (s : System) (hl : Event.tick ∉ l)
    (hr : s.okReads < (exec s l).okReads) : (exec s l).conn.fresh = 1 := by
  induction l generalizing s with
  | nil => simp [exec] at hr
  | cons e l ih =>
    have he : e ≠ .tick := fun h => hl (by simp [h])
    have hl2 : Event.tick ∉ l := fun h => hl (by simp [h])
    have h2 : (exec s (e :: l)) = exec (step s e) l := by simp [exec]
    rw [h2] at hr ⊢
    rcases step_okReads s e he with h | h
    · exact ih (step s e) hl2 (by omega)
    · exact exec_fresh_keep l (step s e) hl2 h.2

/-- Every list of events splits after its last tick. -/
theorem split_last_tick (pre : List Event) :
    ∃ p1 p2, pre = p1 ++ p2 ∧ Event.tick ∉ p2 ∧ (p1 = [] ∨ p1.getLast? = some .tick) := by
  induction pre using List.reverseRecOn with
  | nil => exact ⟨[], [], rfl, by simp, Or.inl rfl⟩
  | append_singleton q e ih =>
    by_cases he : e = .tick
    · exact ⟨q ++ [e], [], by simp, by simp, Or.inr (by simp [he])⟩
    · obtain ⟨p1, p2, hq, hp2, hp1⟩ := ih
      refine ⟨p1, p2 ++ [e], by simp [hq], ?_, hp1⟩
      intro hmem
      rcases List.mem_append.1 hmem with h | h
      · exact hp2 h
      · simp at h; exact he h.symm

theorem step_tick_of_fresh (s : System) (hf : s.conn.fresh = 1) :
    (step s .tick).conn = { s.conn with fresh := 0 } ∨ (step s .tick).conn = s.conn := by
  simp only [step, ttlWait]
  by_cases hw : s.watchdog = true
  · left; simp [hw, hf]
  · right; simp [hw]

theorem step_keeps_open (s : System) (e : Event) (he : e ≠ .tick) (hc : e ≠ .call .close) :
    (step s e).conn.closed = s.conn.closed ∧
    (step s e).conn.onCloseCalls = s.conn.onCloseCalls := by
  cases e with
  | tick => exact absurd rfl he
  | quit =>
    simp only [step, ttlWait]
    split <;> simp
  | call c =>
    cases c with
    | close => exact absurd rfl hc
    | send p =>
      simp only [step, doCall, send]
      split <;> simp
    | write b => simp [step, doCall, Write]
    | read b pick =>
      simp only [step, doCall]
      cases hr : ReadFrom s.conn b pick with
      | none => simp
      | some r =>
        obtain ⟨c1, res⟩ := r
        by_cases hok : res.err = none
        · have := ReadFrom_ok_fresh s.conn b pick (c1, res) hr hok
          simp only at this
          simp [this.2.1, this.2.2.1]
        · have := ReadFrom_err_same s.conn b pick (c1, res) hr hok
          simp at this
          simp [this]

/-- C5: a tick with `fresh = 1` clears `fresh`, keeps the watchdog running and leaves
the rest of the connection (so its open state) as it is; a tick with `fresh = 0` on an
open connection closes it and ends the watchdog; a `ReadFrom` that returns data sets
`fresh` to 1.  Hence in an execution in which a successful read happens before the first
tick and between any two consecutive ticks, every tick finds `fresh = 1` and changes
neither the closed state nor the number of `onClose` runs; without explicit `Close()`
calls the connection is open after every prefix of the execution. -/
theorem watchdog_fed_never_closes (s : System) (evs : List Event)
    (hfed : ∀ p1 p2 post, evs = p1 ++ p2 ++ Event.tick :: post →
      (p1 = [] ∨ p1.getLast? = some Event.tick) → Event.tick ∉ p2 →
      (exec s p1).okReads < (exec s (p1 ++ p2)).okReads) :
    (∀ c : serverConn, c.fresh = 1 → ttlWait c .ticker = ({ c with fresh := 0 }, true)) ∧
    (∀ c : serverConn, c.fresh = 0 → c.closed = false →
      ttlWait c .ticker = ((Close c).1, false) ∧ (ttlWait c .ticker).1.closed = true) ∧
    (∀ (c : serverConn) (b : Payload) (pick : Bool) (r : serverConn × ReadResult),
      ReadFrom c b pick = some r → r.2.err = none → r.1.fresh = 1) ∧
    (∀ pre post, evs = pre ++ Event.tick :: post →
      (exec s pre).conn.fresh = 1 ∧
      (exec s (pre ++ [Event.tick])).conn.closed = (exec s pre).conn.closed ∧
      (exec s (pre ++ [Event.tick])).conn.onCloseCalls = (exec s pre).conn.onCloseCalls) ∧
    ((∀ e ∈ evs, e ≠ Event.call Call.close) → s.conn.closed = false →
      ∀ pre post, evs = pre ++ post →
        (exec s pre).conn.closed = false ∧
        (exec s pre).conn.onCloseCalls = s.conn.onCloseCalls) := by
  have hticks : ∀ pre post, evs = pre ++ Event.tick :: post →
      (exec s pre).conn.fresh = 1 ∧
      (exec s (pre ++ [Event.tick])).conn.closed = (exec s pre).conn.closed ∧
      (exec s (pre ++ [Event.tick])).conn.onCloseCalls = (exec s pre).conn.onCloseCalls := by
    intro pre post hevs
    obtain ⟨p1, p2, hpre, hp2, hp1⟩ := split_last_tick pre
    have hlt := hfed p1 p2 post (by rw [hevs, hpre]) hp1 hp2
    have hf : (exec s pre).conn.fresh = 1 := by
      rw [hpre, exec_append]
      rw [exec_append] at hlt
      exact exec_fresh_of_read p2 (exec s p1) hp2 hlt
    refine ⟨hf, ?_⟩
    have hstep : exec s (pre ++ [Event.tick]) = step (exec s pre) .tick := by
      simp [exec, List.foldl_append]
    rw [hstep]
    rcases step_tick_of_fresh (exec s pre) hf with h | h <;> simp [h]
  refine ⟨?_, ?_, ?_, hticks, ?_⟩
  · intro c hc
    simp [ttlWait, hc]
  · intro c hc hopen
    have : ttlWait c .ticker = ((Close c).1, false) := by simp [ttlWait, hc]
    exact ⟨this, by rw [this]; exact Close_closed c⟩
  · intro c b pick r hr hok
    exact (ReadFrom_ok_fresh c b pick r hr hok).1
  · intro hnc hopen pre
    induction pre using List.reverseRecOn with
    | nil => intro post _; exact ⟨by simpa [exec] using hopen, by simp [exec]⟩
    | append_singleton q e ih =>
      intro post hevs
      have hq := ih ([e] ++ post) (by simpa using hevs)
      have hstep : exec s (q ++ [e]) = step (exec s q) e := by
        simp [exec, List.foldl_append]
      by_cases he : e = Event.tick
      · subst he
        have := (hticks q post (by simpa using hevs)).2
        rw [this.1, this.2]; exact hq
      · have hmem : e ∈ evs := by rw [hevs]; simp
        have := step_keeps_open (exec s q) e he (hnc e hmem)
        rw [hstep, this.1, this.2]; exact hq

/-! ### Timed executions -/

theorem doCall_Inv (cfg : serverConnConfig) (s : System) (c : Call) (h : s.Inv cfg) :
    (doCall s c).Inv cfg := by
  obtain ⟨h1, h2, h3⟩ := h
  cases c with
  | send p =>
    simp only [doCall, send]
    split <;> exact ⟨h1, h2, h3⟩
  | write b => exact ⟨h1, h2, h3⟩
  | close =>
    simp only [doCall]
    by_cases hc : s.conn.closed = true
    · rw [Close_of_closed _ hc]; exact ⟨h1, h2, h3⟩
    · have hc2 : s.conn.closed = false := by simpa using hc
      rw [Close_of_open _ hc2]
      refine ⟨h1, fun _ => rfl, ?_⟩
      simp only [hc2] at h3
      simp [h3, h1]
  | read b pick =>
    simp only [doCall]
    cases hr : ReadFrom s.conn b pick with
    | none => exact ⟨h1, h2, h3⟩
    | some r =>
      obtain ⟨c1, res⟩ := r
      by_cases hok : res.err = none
      · have := ReadFrom_ok_fresh s.conn b pick (c1, res) hr hok
        simp only at this
        refine ⟨by simpa [this.2.2.2] using h1, ?_, ?_⟩
        · simpa [this.2.1] using h2
        · simpa [this.2.1, this.2.2.1] using h3
      · have := ReadFrom_err_same s.conn b pick (c1, res) hr hok
        simp only at this
        subst this
        exact ⟨h1, h2, h3⟩

theorem tick_Inv (cfg : serverConnConfig) (s : System) (h : s.Inv cfg) :
    (step s .tick).Inv cfg := by
  obtain ⟨h1, h2, h3⟩ := h
  simp only [step, ttlWait]
  by_cases hw : s.watchdog = true
  · by_cases hf : s.conn.fresh = 1
    · simp only [hw, hf, if_true]
      exact ⟨h1, by simp, h3⟩
    · simp only [hw, hf, if_true, if_false]
      by_cases hc : s.conn.closed = true
      · rw [Close_of_closed _ hc]; exact ⟨h1, fun _ => hc, h3⟩
      · have hc2 : s.conn.closed = false := by simpa using hc
        rw [Close_of_open _ hc2]
        refine ⟨h1, fun _ => rfl, ?_⟩
        simp only [hc2] at h3
        simp [h3, h1]
  · simp only [hw]
    exact ⟨h1, h2, h3⟩

theorem calls_Inv (cfg : serverConnConfig) (l : List Call) (s : System) (h : s.Inv cfg) :
    (l.foldl doCall s).Inv cfg := by
  induction l generalizing s with
  | nil => exact h
  | cons c l ih => exact ih _ (doCall_Inv cfg s c h)

theorem stateAt_Inv (cfg : serverConnConfig) (T : Nat) (sched : Nat → List Call)
    (s : System) (h : s.Inv cfg) (n : Nat) : (stateAt T sched s n).Inv cfg := by
  induction n with
  | zero => exact h
  | succ n ih =>
    simp only [stateAt]
    split
    · exact tick_Inv cfg _ (calls_Inv cfg _ _ ih)
    · exact calls_Inv cfg _ _ ih

theorem doCall_closed (s : System) (c : Call) (h : s.conn.closed = true) :
    (doCall s c).conn.closed = true := by
  cases c with
  | send p =>
    simp only [doCall, send]
    split <;> exact h
  | write b => exact h
  | close => exact Close_closed _
  | read b pick =>
    simp only [doCall]
    cases hr : ReadFrom s.conn b pick with
    | none => exact h
    | some r =>
      obtain ⟨c1, res⟩ := r
      by_cases hok : res.err = none
      · have := ReadFrom_ok_fresh s.conn b pick (c1, res) hr hok
        simp only at this
        simpa [this.2.1] using h
      · have := ReadFrom_err_same s.conn b pick (c1, res) hr hok
        simp only at this
        subst this
        exact h

theorem tick_closed (s : System) (h : s.conn.closed = true) :
    (step s .tick).conn.closed = true := by
  simp only [step, ttlWait]
  by_cases hw : s.watchdog = true
  · by_cases hf : s.conn.fresh = 1
    · simpa [hw, hf] using h
    · simp only [hw, hf, if_true, if_false]; exact Close_closed _
  · simpa [hw] using h

theorem calls_closed (l : List Call) (s : System) (h : s.conn.closed = true) :
    (l.foldl doCall s).conn.closed = true := by
  induction l generalizing s with
  | nil => exact h
  | cons c l ih => exact ih _ (doCall_closed s c h)

theorem calls_okReads_le (l : List Call) (s : System) :
    s.okReads ≤ (l.foldl doCall s).okReads := by
  induction l generalizing s with
  | nil => exact Nat.le_refl _
  | cons c l ih =>
    have h1 := ih (doCall s c)
    have h2 : (List.foldl doCall s (c :: l)) = List.foldl doCall (doCall s c) l := rfl
    rw [h2]
    rcases doCall_okReads s c with h | h <;> omega

theorem tick_okReads (s : System) : (step s .tick).okReads = s.okReads := by
  simp only [step]
  split <;> rfl

/-- Calls among which no read returns data keep "closed, or `fresh` is not 1". -/
theorem calls_quiet (l : List Call) (s : System)
    (hq : (l.foldl doCall s).okReads = s.okReads)
    (hP : s.conn.closed = true ∨ s.conn.fresh ≠ 1) :
    (l.foldl doCall s).conn.closed = true ∨ (l.foldl doCall s).conn.fresh ≠ 1 := by
  induction l generalizing s with
  | nil => exact hP
  | cons c l ih =>
    have h2 : (List.foldl doCall s (c :: l)) = List.foldl doCall (doCall s c) l := rfl
    rw [h2] at hq ⊢
    have hle := calls_okReads_le l (doCall s c)
    rcases doCall_okReads s c with h | h
    · apply ih (doCall s c) (by omega)
      rcases hP with hc | hf
      · exact Or.inl (doCall_closed s c hc)
      · exact Or.inr (by rw [h.2]; exact hf)
    · omega

theorem tick_clears (cfg : serverConnConfig) (s : System) (h : s.Inv cfg) :
    (step s .tick).conn.closed = true ∨ (step s .tick).conn.fresh ≠ 1 := by
  simp only [step, ttlWait]
  by_cases hw : s.watchdog = true
  · by_cases hf : s.conn.fresh = 1
    · right; simp [hw, hf]
    · left; simp only [hw, hf, if_true, if_false]; exact Close_closed _
  · left
    have : s.watchdog = false := by simpa using hw
    simpa [this] using h.2.1 this

theorem tick_closes (cfg : serverConnConfig) (s : System) (h : s.Inv cfg)
    (hP : s.conn.closed = true ∨ s.conn.fresh ≠ 1) : (step s .tick).conn.closed = true := by
  rcases hP with hc | hf
  · exact tick_closed s hc
  · simp only [step, ttlWait]
    by_cases hw : s.watchdog = true
    · simp only [hw, hf, if_true, if_false]; exact Close_closed _
    · have : s.watchdog = false := by simpa using hw
      simpa [this] using h.2.1 this

theorem stateAt_okReads_le (T : Nat) (sched : Nat → List Call) (s : System) (m n : Nat)
    (h : m ≤ n) : (stateAt T sched s m).okReads ≤ (stateAt T sched s n).okReads := by
  induction n with
  | zero =>
    have : m = 0 := by omega
    subst this; exact Nat.le_refl _
  | succ n ih =>
    by_cases hm : m = n + 1
    · subst hm; exact Nat.le_refl _
    · have h1 := ih (by omega)
      have h2 := calls_okReads_le (sched (n + 1)) (stateAt T sched s n)
      simp only [stateAt]
      split
      · rw [tick_okReads]; omega
      · omega

theorem stateAt_closed_mono (T : Nat) (sched : Nat → List Call) (s : System) (m n : Nat)
    (h : m ≤ n) (hc : (stateAt T sched s m).conn.closed = true) :
    (stateAt T sched s n).conn.closed = true := by
  induction n with
  | zero =>
    have : m = 0 := by omega
    subst this; exact hc
  | succ n ih =>
    by_cases hm : m = n + 1
    · subst hm; exact hc
    · have h1 := ih (by omega)
      simp only [stateAt]
      split
      · exact tick_closed _ (calls_closed _ _ h1)
      · exact calls_closed _ _ h1

theorem stateAt_succ (T : Nat) (sched : Nat → List Call) (s : System) (n : Nat) :
    stateAt T sched s (n + 1) =
      if T ∣ (n + 1) then step ((sched (n + 1)).foldl doCall (stateAt T sched s n)) .tick
      else (sched (n + 1)).foldl doCall (stateAt T sched s n) := rfl

/-- An instant without a successful read: at a tick the connection gets closed, at
another instant "closed, or `fresh` is not 1" is kept. -/
theorem quiet_instant (cfg : serverConnConfig) (T : Nat) (sched : Nat → List Call)
    (s : System) (hI : s.Inv cfg) (n : Nat)
    (hP : (stateAt T sched s n).conn.closed = true ∨ (stateAt T sched s n).conn.fresh ≠ 1)
    (hq : (stateAt T sched s (n + 1)).okReads = (stateAt T sched s n).okReads) :
    (T ∣ (n + 1) → (stateAt T sched s (n + 1)).conn.closed = true) ∧
    (¬ T ∣ (n + 1) → ((stateAt T sched s (n + 1)).conn.closed = true ∨
      (stateAt T sched s (n + 1)).conn.fresh ≠ 1)) := by
  have hIn := stateAt_Inv cfg T sched s hI n
  have hI1 := calls_Inv cfg (sched (n + 1)) _ hIn
  rw [stateAt_succ] at hq ⊢
  by_cases hd : T ∣ (n + 1)
  · simp only [hd, if_true] at hq ⊢
    rw [tick_okReads] at hq
    exact ⟨fun _ => tick_closes cfg _ hI1 (calls_quiet _ _ hq hP), fun h => absurd trivial h⟩
  · simp only [hd, if_false] at hq ⊢
    exact ⟨fun h => absurd h (by simp), fun _ => calls_quiet _ _ hq hP⟩

theorem at_tick_cleared (cfg : serverConnConfig) (T : Nat) (sched : Nat → List Call)
    (s : System) (hI : s.Inv cfg) (hP : s.conn.closed = true ∨ s.conn.fresh ≠ 1)
    (n : Nat) (hd : T ∣ n) :
    (stateAt T sched s n).conn.closed = true ∨ (stateAt T sched s n).conn.fresh ≠ 1 := by
  cases n with
  | zero => exact hP
  | succ n =>
    rw [stateAt_succ]
    simp only [hd, if_true]
    exact tick_clears cfg _ (calls_Inv cfg _ _ (stateAt_Inv cfg T sched s hI n))

/-- A whole tick interval without a successful read ends with the connection closed. -/
theorem quiet_interval (cfg : serverConnConfig) (T : Nat) (sched : Nat → List Call)
    (s : System) (hI : s.Inv cfg) (hP : s.conn.closed = true ∨ s.conn.fresh ≠ 1)
    (hT : 0 < T) (m : Nat) (hd : T ∣ m)
    (hq : (stateAt T sched s (m + T)).okReads = (stateAt T sched s m).okReads) :
    (stateAt T sched s (m + T)).conn.closed = true := by
  have hsame : ∀ j, j ≤ T → (stateAt T sched s (m + j)).okReads
      = (stateAt T sched s m).okReads := by
    intro j hj
    have h1 := stateAt_okReads_le T sched s m (m + j) (by omega)
    have h2 := stateAt_okReads_le T sched s (m + j) (m + T) (by omega)
    omega
  have hstep : ∀ j, j < T → ((stateAt T sched s (m + j)).conn.closed = true ∨
      (stateAt T sched s (m + j)).conn.fresh ≠ 1) := by
    intro j
    induction j with
    | zero => intro _; exact at_tick_cleared cfg T sched s hI hP m hd
    | succ j ih =>
      intro hj
      have hPj := ih (by omega)
      have hqj : (stateAt T sched s (m + j + 1)).okReads
          = (stateAt T sched s (m + j)).okReads := by
        have h1 := hsame (j + 1) (by omega)
        have h2 := hsame j (by omega)
        rw [← Nat.add_assoc] at h1
        omega
      have hnd : ¬ T ∣ (m + j + 1) := by
        intro h
        have h3 : T ∣ (j + 1) := by
          have : m + j + 1 = m + (j + 1) := by omega
          rw [this] at h
          exact (Nat.dvd_add_right hd).1 h
        have := Nat.le_of_dvd (by omega) h3
        omega
      exact (quiet_instant cfg T sched s hI (m + j) hPj hqj).2 hnd
  obtain ⟨k, hk⟩ : ∃ k, T = k + 1 := ⟨T - 1, by omega⟩
  have hPk := hstep k (by omega)
  have hqk : (stateAt T sched s (m + k + 1)).okReads
      = (stateAt T sched s (m + k)).okReads := by
    have h1 := hsame (k + 1) (by omega)
    have h2 := hsame k (by omega)
    rw [← Nat.add_assoc] at h1
    omega
  have hdk : T ∣ (m + k + 1) := by
    have : m + k + 1 = m + T := by omega
    rw [this]
    exact (Nat.dvd_add_right hd).2 (Nat.dvd_refl T)
  have := (quiet_instant cfg T sched s hI (m + k) hPk hqk).1 hdk
  have he : m + T = m + k + 1 := by omega
  rw [he]; exact this

/-- C4 fails as stated: with TTL 4 (ticks at 4, 8, 12, ...) and successful reads only
at the instants 1, 7, 11, 15, ..., no read succeeds at the instants 2 .. 6, a span longer
than the TTL, yet the connection is open after instant 6, and still open after
instants 8 and 40, and `onClose` has not run. -/
theorem ttl_span_counterexample :
    newServerConn (some ()) (some "peer") (some ⟨4, 1, true⟩)
      = some ⟨"peer", [], 0, false, ⟨4, 1, true⟩, 0, []⟩ ∧
    1 + 4 < 6 ∧
    (stateAt 4 sparseReads (System.start ⟨"peer", [], 0, false, ⟨4, 1, true⟩, 0, []⟩) 6).okReads
      = (stateAt 4 sparseReads
          (System.start ⟨"peer", [], 0, false, ⟨4, 1, true⟩, 0, []⟩) 1).okReads ∧
    (stateAt 4 sparseReads
      (System.start ⟨"peer", [], 0, false, ⟨4, 1, true⟩, 0, []⟩) 6).conn.closed = false ∧
    (stateAt 4 sparseReads
      (System.start ⟨"peer", [], 0, false, ⟨4, 1, true⟩, 0, []⟩) 8).conn.closed = false ∧
    (stateAt 4 sparseReads
      (System.start ⟨"peer", [], 0, false, ⟨4, 1, true⟩, 0, []⟩) 40).conn.closed = false ∧
    (stateAt 4 sparseReads
      (System.start ⟨"peer", [], 0, false, ⟨4, 1, true⟩, 0, []⟩) 40).conn.onCloseCalls = 0 := by
  refine ⟨rfl, by decide, ?_, ?_, ?_, ?_, ?_⟩ <;> decide

/-- C4, amended: for a connection made by `newServerConn` with TTL `T > 0` whose
watchdog ticks at `T, 2T, ...`, if no read returns data during a span of at least `2T`
(the instants `a+1 .. b` with `a + 2T <= b`), then after instant `b` and ever after the
connection is closed and `onClose` has run exactly once when it is non-nil (never when
it is nil), whoever closed it. -/
theorem ttl_expiry (conn : Option Unit) (raddr : Option String) (cfg : serverConnConfig)
    (c : serverConn) (sched : Nat → List Call) (a b : Nat)
    (hc : newServerConn conn raddr (some cfg) = some c) (hT : 0 < cfg.ttl)
    (hspan : a + 2 * cfg.ttl ≤ b)
    (hquiet : (stateAt cfg.ttl sched (System.start c) b).okReads
      = (stateAt cfg.ttl sched (System.start c) a).okReads) :
    ∀ n, b ≤ n →
      (stateAt cfg.ttl sched (System.start c) n).conn.closed = true ∧
      (stateAt cfg.ttl sched (System.start c) n).conn.onCloseCalls
        = (if cfg.onClose then 1 else 0) := by
  have hc0 : c = ⟨raddr.getD "", [], 0, false, cfg, 0, []⟩ := by
    unfold newServerConn at hc
    cases conn <;> cases raddr <;> simp at hc
    simp [← hc]
  have hI : (System.start c).Inv cfg := by
    subst hc0
    exact ⟨rfl, by simp [System.start], by simp [System.start]⟩
  have hP : (System.start c).conn.closed = true ∨ (System.start c).conn.fresh ≠ 1 := by
    subst hc0
    right; simp [System.start]
  -- the first tick instant `m` at or after `a`
  obtain ⟨m, hdm, ham, hma⟩ : ∃ m, cfg.ttl ∣ m ∧ a ≤ m ∧ m < a + cfg.ttl := by
    refine ⟨cfg.ttl * ((a + cfg.ttl - 1) / cfg.ttl), Dvd.intro _ rfl, ?_, ?_⟩
    · have h1 := Nat.div_add_mod (a + cfg.ttl - 1) cfg.ttl
      have h2 := Nat.mod_lt (a + cfg.ttl - 1) hT
      generalize cfg.ttl * ((a + cfg.ttl - 1) / cfg.ttl) = x at h1 ⊢
      omega
    · have h1 := Nat.div_add_mod (a + cfg.ttl - 1) cfg.ttl
      generalize cfg.ttl * ((a + cfg.ttl - 1) / cfg.ttl) = x at h1 ⊢
      omega
  have hq : (stateAt cfg.ttl sched (System.start c) (m + cfg.ttl)).okReads
      = (stateAt cfg.ttl sched (System.start c) m).okReads := by
    have h1 := stateAt_okReads_le cfg.ttl sched (System.start c) a m ham
    have h2 := stateAt_okReads_le cfg.ttl sched (System.start c) m (m + cfg.ttl) (by omega)
    have h3 := stateAt_okReads_le cfg.ttl sched (System.start c) (m + cfg.ttl) b (by omega)
    omega
  have hcl := quiet_interval cfg cfg.ttl sched (System.start c) hI hP hT m hdm hq
  intro n hn
  have hcn := stateAt_closed_mono cfg.ttl sched (System.start c) (m + cfg.ttl) n
    (by omega) hcl
  have hIn := stateAt_Inv cfg cfg.ttl sched (System.start c) hI n
  refine ⟨hcn, ?_⟩
  rw [hIn.2.2, hcn]; simp

/-- Witness of the amended C4: TTL 4, a read at instant 1 only, the span 1 .. 9. -/
theorem ttl_expiry_witness :
    (stateAt 4 (fun t => if t = 1 then [Call.send [1], Call.read [0] true] else [])
      (System.start ⟨"peer", [], 0, false, ⟨4, 1, true⟩, 0, []⟩) 9).conn.closed = true ∧
    (stateAt 4 (fun t => if t = 1 then [Call.send [1], Call.read [0] true] else [])
      (System.start ⟨"peer", [], 0, false, ⟨4, 1, true⟩, 0, []⟩) 9).conn.onCloseCalls
      = (if (⟨4, 1, true⟩ : serverConnConfig).onClose then 1 else 0) :=
  ttl_expiry (some ()) (some "peer") ⟨4, 1, true⟩ ⟨"peer", [], 0, false, ⟨4, 1, true⟩, 0, []⟩
    (fun t => if t = 1 then [Call.send [1], Call.read [0] true] else []) 1 9
    rfl (by decide) (by decide) (by decide) 9 (Nat.le_refl 9)

/-- Witness of C5: a payload arrives and is read, then the ticker fires; the connection
stays open. -/
theorem watchdog_fed_never_closes_witness :
    (exec (System.start ⟨"peer", [], 0, false, ⟨4, 1, true⟩, 0, []⟩)
      [.call (.send [1]), .call (.read [0] true), .tick]).conn.closed = false := by
  have hfed : ∀ p1 p2 post,
      [Event.call (.send [1]), .call (.read [0] true), .tick] = p1 ++ p2 ++ Event.tick :: post →
      (p1 = [] ∨ p1.getLast? = some Event.tick) → Event.tick ∉ p2 →
      (exec (System.start ⟨"peer", [], 0, false, ⟨4, 1, true⟩, 0, []⟩) p1).okReads
        < (exec (System.start ⟨"peer", [], 0, false, ⟨4, 1, true⟩, 0, []⟩)
            (p1 ++ p2)).okReads := by
    intro p1 p2 post h hp1 hp2
    have hcount := congrArg (List.count Event.tick) h
    simp only [List.count_append, List.count_cons_self] at hcount
    have h0 : List.count Event.tick
        [Event.call (.send [1]), .call (.read [0] true), .tick] = 1 := by decide
    rw [h0] at hcount
    have hp1nil : p1 = [] := by
      rcases hp1 with h1 | h1
      · exact h1
      · have hm := List.mem_of_getLast?_eq_some h1
        have := List.count_pos_iff.2 hm
        omega
    subst hp1nil
    simp only [List.nil_append] at h ⊢
    match p2, h, hp2 with
    | [], h, _ => simp at h
    | [x], h, _ => simp at h
    | [x, y], h, _ =>
      simp at h
      obtain ⟨hx, hy, _⟩ := h
      subst hx; subst hy
      decide
    | x :: y :: z :: rest, h, _ => simp at h
  exact ((watchdog_fed_never_closes _ _ hfed).2.2.2.2 (by decide) rfl
    [.call (.send [1]), .call (.read [0] true), .tick] [] (by simp)).1

end ftcp

/-! ## Theorems: the relay bind -/

namespace relay

/-- C6: for a network other than tcp, tcp4, tcp6, udp, udp4 and udp6, `Bind` returns no
listener and the error "network <network> is unsupported", and the connection is as
before: no request was written to it and no reply was read from it. -/
theorem Bind_unsupported (c : relayConnector) (w : World) (conn : Conn)
    (network address : String) (opts : List (BindOptions → BindOptions))
    (h : network ≠ "tcp" ∧ network ≠ "tcp4" ∧ network ≠ "tcp6" ∧
         network ≠ "udp" ∧ network ≠ "udp4" ∧ network ≠ "udp6") :
    c.Bind w conn network address opts
      = (conn, .error ("network " ++ network ++ " is unsupported")) := by
  obtain ⟨h1, h2, h3, h4, h5, h6⟩ := h
  simp [relayConnector.Bind, h1, h2, h3, h4, h5, h6]

/-- Witness of C6 on the network "unsupported", with a reply waiting on the connection. -/
theorem Bind_unsupported_witness :
    (⟨none⟩ : relayConnector).Bind offlineWorld ⟨[], none, [.resp ⟨1, 0, []⟩]⟩
        "unsupported" "0.0.0.0:8080" []
      = (⟨[], none, [.resp ⟨1, 0, []⟩]⟩, .error "network unsupported is unsupported") :=
  Bind_unsupported ⟨none⟩ offlineWorld ⟨[], none, [.resp ⟨1, 0, []⟩]⟩ "unsupported"
    "0.0.0.0:8080" [] (by decide)

theorem scanFeatures_none (fs : List Feature) (addr : String)
    (h : ∀ f ∈ fs, ∀ t host port, f ≠ Feature.AddrFeature t host port) :
    scanFeatures addr fs = addr := by
  induction fs generalizing addr with
  | nil => rfl
  | cons f fs ih =>
    have hf := h f (by simp)
    have hfs : ∀ g ∈ fs, ∀ t host port, g ≠ Feature.AddrFeature t host port :=
      fun g hg => h g (by simp [hg])
    cases f with
    | AddrFeature t host port => exact absurd rfl (hf t host port)
    | UserAuthFeature u pw => simp [scanFeatures, ih _ hfs]
    | other tag => simp [scanFeatures, ih _ hfs]

theorem scanFeatures_last (pre post : List Feature) (addr : String) (t : Nat)
    (host : String) (port : Nat)
    (h : ∀ f ∈ post, ∀ t1 host1 port1, f ≠ Feature.AddrFeature t1 host1 port1) :
    scanFeatures addr (pre ++ Feature.AddrFeature t host port :: post)
      = JoinHostPort host (Itoa port) := by
  induction pre generalizing addr with
  | nil => simp [scanFeatures, Feature.Type_, scanFeatures_none post _ h]
  | cons f pre ih =>
    cases f with
    | AddrFeature t1 host1 port1 => simp [scanFeatures, Feature.Type_, ih]
    | UserAuthFeature u pw => simp [scanFeatures, ih]
    | other tag => simp [scanFeatures, ih]

/-- What `bind` does once the request is written and a response with status OK is
read. -/
theorem bind_of_ok (c : relayConnector) (w : World) (conn : Conn) (cmd : Nat)
    (network address : String) (r : Response) (rest : List Reply)
    (hw : conn.writeErr = none) (hr : conn.replies = Reply.resp r :: rest)
    (hs : r.Status = StatusOK) :
    (c.bind w conn cmd network address).2 =
      if network = "tcp" ∨ network = "tcp4" ∨ network = "tcp6" then
        ResolveTCPAddr w network (scanFeatures "" r.Features)
      else if network = "udp" ∨ network = "udp4" ∨ network = "udp6" then
        ResolveUDPAddr w network (scanFeatures "" r.Features)
      else .error ("unknown network " ++ network) := by
  simp only [relayConnector.bind, Request.WriteTo, hw, Response.ReadFrom, hr, hs]
  simp only [ne_eq, not_true_eq_false, if_false]
  split
  · rfl
  · split <;> rfl

/-- C7 fails as stated: the response has status OK and no feature at all, and `bind`
on network "tcp" returns the zero address and no error. -/
theorem bind_no_addr_counterexample :
    (⟨none⟩ : relayConnector).bind offlineWorld ⟨[], none, [.resp ⟨1, StatusOK, []⟩]⟩ BIND
        "tcp" "0.0.0.0:8080"
      = (⟨[⟨1, BIND, [.AddrFeature 0 "0.0.0.0:8080" 0]⟩], none, []⟩, .ok (.TCPAddr "" 0)) := by
  rfl

/-- C7, amended: for a supported network, once the request is written and a response
with status OK is read, `bind` returns what the resolver of the network family
(`ResolveTCPAddr` for tcp, tcp4, tcp6, `ResolveUDPAddr` for udp, udp4, udp6) returns for
the joined host and port of the last AddrFeature of the response; when the response has
no AddrFeature the resolver is given the empty string, and `bind` returns the zero
address of the family and no error. -/
theorem bind_resolves_last_addr (c : relayConnector) (w : World) (conn : Conn) (cmd : Nat)
    (network address : String) (r : Response) (rest : List Reply)
    (hw : conn.writeErr = none) (hr : conn.replies = Reply.resp r :: rest)
    (hs : r.Status = StatusOK)
    (hn : network = "tcp" ∨ network = "tcp4" ∨ network = "tcp6" ∨
          network = "udp" ∨ network = "udp4" ∨ network = "udp6") :
    (∀ pre t host port post, r.Features = pre ++ Feature.AddrFeature t host port :: post →
      (∀ f ∈ post, ∀ t1 host1 port1, f ≠ Feature.AddrFeature t1 host1 port1) →
      (c.bind w conn cmd network address).2 =
        if network = "tcp" ∨ network = "tcp4" ∨ network = "tcp6" then
          ResolveTCPAddr w network (JoinHostPort host (Itoa port))
        else ResolveUDPAddr w network (JoinHostPort host (Itoa port))) ∧
    ((∀ f ∈ r.Features, ∀ t host port, f ≠ Feature.AddrFeature t host port) →
      (c.bind w conn cmd network address).2 =
        if network = "tcp" ∨ network = "tcp4" ∨ network = "tcp6" then .ok (.TCPAddr "" 0)
        else .ok (.UDPAddr "" 0)) := by
  have hb := bind_of_ok c w conn cmd network address r rest hw hr hs
  have hudp : ¬ (network = "tcp" ∨ network = "tcp4" ∨ network = "tcp6") →
      (network = "udp" ∨ network = "udp4" ∨ network = "udp6") := by
    intro h
    rcases hn with h1 | h1 | h1 | h1 | h1 | h1
    · exact absurd (Or.inl h1) h
    · exact absurd (Or.inr (Or.inl h1)) h
    · exact absurd (Or.inr (Or.inr h1)) h
    · exact Or.inl h1
    · exact Or.inr (Or.inl h1)
    · exact Or.inr (Or.inr h1)
  constructor
  · intro pre t host port post hf hpost
    rw [hb, hf, scanFeatures_last pre post "" t host port hpost]
    by_cases ht : network = "tcp" ∨ network = "tcp4" ∨ network = "tcp6"
    · rw [if_pos ht, if_pos ht]
    · rw [if_neg ht, if_neg ht, if_pos (hudp ht)]
  · intro hnone
    rw [hb, scanFeatures_none r.Features "" hnone]
    by_cases ht : network = "tcp" ∨ network = "tcp4" ∨ network = "tcp6"
    · rw [if_pos ht, if_pos ht]
      have : network = "tcp" ∨ network = "tcp4" ∨ network = "tcp6" ∨ network = "" := by
        rcases ht with h1 | h1 | h1
        · exact Or.inl h1
        · exact Or.inr (Or.inl h1)
        · exact Or.inr (Or.inr (Or.inl h1))
      simp [ResolveTCPAddr, this]
    · rw [if_neg ht, if_neg ht, if_pos (hudp ht)]
      have : network = "udp" ∨ network = "udp4" ∨ network = "udp6" ∨ network = "" := by
        rcases hudp ht with h1 | h1 | h1
        · exact Or.inl h1
        · exact Or.inr (Or.inl h1)
        · exact Or.inr (Or.inr (Or.inl h1))
      simp [ResolveUDPAddr, this]

/-- Witness of the amended C7: two AddrFeatures in the response, the last one is
resolved (and the lookup of the offline world fails on it). -/
theorem bind_resolves_last_addr_witness :
    ((⟨none⟩ : relayConnector).bind offlineWorld
        ⟨[], none, [.resp ⟨1, StatusOK, [.AddrFeature 1 "10.0.0.1" 80,
                                           .AddrFeature 1 "203.0.113.5" 51820]⟩]⟩
        (FUDP ||| BIND) "udp" "0.0.0.0:0").2 =
      if "udp" = "tcp" ∨ "udp" = "tcp4" ∨ "udp" = "tcp6" then
        ResolveTCPAddr offlineWorld "udp" (JoinHostPort "203.0.113.5" (Itoa 51820))
      else ResolveUDPAddr offlineWorld "udp" (JoinHostPort "203.0.113.5" (Itoa 51820)) :=
  (bind_resolves_last_addr ⟨none⟩ offlineWorld _ (FUDP ||| BIND) "udp" "0.0.0.0:0"
    ⟨1, StatusOK, [.AddrFeature 1 "10.0.0.1" 80, .AddrFeature 1 "203.0.113.5" 51820]⟩ []
    rfl rfl rfl (by decide)).1 [.AddrFeature 1 "10.0.0.1" 80] 1 "203.0.113.5" 51820 []
    rfl (by simp)

theorem bind_written (c : relayConnector) (w : World) (conn : Conn) (cmd : Nat)
    (network address : String) (hw : conn.writeErr = none) :
    (c.bind w conn cmd network address).1.written = conn.written ++
      [{ Version := Version1, Flags := cmd,
         Features := (match c.Auth with
            | some auth => [Feature.UserAuthFeature auth.username auth.password]
            | none => []) ++ [w.ParseFrom address] }] := by
  simp only [relayConnector.bind, Request.WriteTo, hw, Response.ReadFrom]
  cases hr : conn.replies with
  | nil => cases c.Auth <;> rfl
  | cons rep rest =>
    cases rep with
    | fail e => cases c.Auth <;> rfl
    | resp r =>
      simp only
      split
      · cases c.Auth <;> rfl
      · split
        · cases c.Auth <;> rfl
        · split <;> cases c.Auth <;> rfl

/-- C8: when the write succeeds, `bind` appends to the connection exactly one request,
with `Version = 1`, `Flags` the command it was given, and the features
`[AddrFeature parsed from address]` without credentials and
`[UserAuthFeature(username, password), AddrFeature parsed from address]` with
credentials; through `Bind` the flags are `BIND` on the tcp networks and `FUDP|BIND` on
the udp networks. -/
theorem bind_request (c : relayConnector) (w : World) (conn : Conn) (cmd : Nat)
    (network address : String) (opts : List (BindOptions → BindOptions))
    (hw : conn.writeErr = none) :
    Version1 = 1 ∧
    (c.Auth = none →
      (c.bind w conn cmd network address).1.written
        = conn.written ++ [⟨1, cmd, [w.ParseFrom address]⟩]) ∧
    (∀ u : Userinfo, c.Auth = some u →
      (c.bind w conn cmd network address).1.written
        = conn.written ++
            [⟨1, cmd, [Feature.UserAuthFeature u.username u.password, w.ParseFrom address]⟩]) ∧
    ((network = "tcp" ∨ network = "tcp4" ∨ network = "tcp6") →
      (c.Bind w conn network address opts).1.written
        = (c.bind w conn BIND network address).1.written) ∧
    ((network = "udp" ∨ network = "udp4" ∨ network = "udp6") →
      (c.Bind w conn network address opts).1.written
        = (c.bind w conn (FUDP ||| BIND) network address).1.written) := by
  have hb := bind_written c w conn cmd network address hw
  refine ⟨rfl, ?_, ?_, ?_, ?_⟩
  · intro ha
    rw [hb, ha]; rfl
  · intro u ha
    rw [hb, ha]; rfl
  · intro ht
    simp only [relayConnector.Bind, if_pos ht, relayConnector.bindTCP]
    split
    · rename_i h; rw [h]
    · rename_i h; rw [h]
      split <;> rfl
  · intro hu
    have ht : ¬ (network = "tcp" ∨ network = "tcp4" ∨ network = "tcp6") := by
      rintro (h | h | h) <;> rcases hu with h1 | h1 | h1 <;> rw [h] at h1 <;>
        exact absurd h1 (by decide)
    simp only [relayConnector.Bind, if_neg ht, if_pos hu, relayConnector.bindUDP]
    split
    · rename_i h; rw [h]
    · rename_i h; rw [h]

/-- Witness of C8: credentials alice/secret, a datagram bind through `Bind`. -/
theorem bind_request_witness :
    ((⟨some ⟨"alice", "secret", true⟩⟩ : relayConnector).Bind offlineWorld ⟨[], none, []⟩
        "udp" "0.0.0.0:8080" []).1.written
      = [⟨1, 130, [.UserAuthFeature "alice" "secret", .AddrFeature 0 "0.0.0.0:8080" 0]⟩] :=
  ((bind_request ⟨some ⟨"alice", "secret", true⟩⟩ offlineWorld ⟨[], none, []⟩
      (FUDP ||| BIND) "udp" "0.0.0.0:8080" [] rfl).2.2.2.2 (Or.inl rfl)).trans
    ((bind_request ⟨some ⟨"alice", "secret", true⟩⟩ offlineWorld ⟨[], none, []⟩
      (FUDP ||| BIND) "udp" "0.0.0.0:8080" [] rfl).2.2.1 ⟨"alice", "secret", true⟩ rfl)

end relay

/-! ## Theorems: the chain builder -/

namespace parsing

theorem parseNode_cases (env : Env) (lg : dialer.Logger) (hop : HopConfig) (v : NodeConfig) :
    (∃ err, parseNode env lg hop v = .error err ∧ nodeFailure env lg hop v err) ∨
    (∃ node, parseNode env lg hop v = .ok node ∧ node.Name = v.Name ∧
      ∀ err, ¬ nodeFailure env lg hop v err) := by
  unfold parseNode nodeFailure
  cases h1 : loadTLS env v.Connector with
  | error e => exact Or.inl ⟨e, rfl, Or.inl rfl⟩
  | ok t =>
    simp only
    cases h2 : env.connectorInit (newComponent env v.Connector t
        (WithFields (nodeLoggerOf lg hop v) [("kind", "connector")]))
        (v.Connector.Metadata.getD []) with
    | some e => exact Or.inl ⟨e, rfl, Or.inr (Or.inl ⟨t, rfl, h2⟩)⟩
    | none =>
      simp only
      cases h3 : loadTLS env v.Dialer with
      | error e => exact Or.inl ⟨e, rfl, Or.inr (Or.inr (Or.inl rfl))⟩
      | ok t2 =>
        simp only
        cases h4 : env.dialerInit (newComponent env v.Dialer t2
            (WithFields (nodeLoggerOf lg hop v) [("kind", "dialer")]))
            (v.Dialer.Metadata.getD []) with
        | some e => exact Or.inl ⟨e, rfl, Or.inr (Or.inr (Or.inr ⟨t2, rfl, h4⟩))⟩
        | none =>
          refine Or.inr ⟨_, rfl, rfl, ?_⟩
          intro err hf
          rcases hf with hf | ⟨t1, ht, hf⟩ | hf | ⟨t1, ht, hf⟩
          · simp at hf
          · simp at ht; subst ht; rw [h2] at hf; simp at hf
          · simp at hf
          · simp at ht; subst ht; rw [h4] at hf; simp at hf

/-- The inner loop: it fails with the error of the first failing node, or adds one node
per configured node, in order, and keeps the selector of the group. -/
theorem parseNodes_cases (env : Env) (lg : dialer.Logger) (hop : HopConfig)
    (vs : List NodeConfig) (g : NodeGroup) :
    (∃ err, parseNodes env lg hop g vs = .error err ∧
      ∃ v ∈ vs, nodeFailure env lg hop v err) ∨
    (∃ g1, parseNodes env lg hop g vs = .ok g1 ∧ g1.selector = g.selector ∧
      g1.nodes.map Node.Name = g.nodes.map Node.Name ++ vs.map NodeConfig.Name ∧
      ∀ v ∈ vs, ∀ err, ¬ nodeFailure env lg hop v err) := by
  induction vs generalizing g with
  | nil => exact Or.inr ⟨g, rfl, rfl, by simp, by simp⟩
  | cons v vs ih =>
    rcases parseNode_cases env lg hop v with ⟨err, he, hf⟩ | ⟨node, hn, hname, hnf⟩
    · exact Or.inl ⟨err, by simp [parseNodes, he], v, by simp, hf⟩
    · rcases ih (g.AddNode node) with ⟨err, he, w, hw, hf⟩ | ⟨g1, hg, hsel, hnames, hnf2⟩
      · exact Or.inl ⟨err, by simp [parseNodes, hn, he], w, by simp [hw], hf⟩
      · refine Or.inr ⟨g1, by simp [parseNodes, hn, hg], ?_, ?_, ?_⟩
        · simpa [NodeGroup.AddNode] using hsel
        · simpa [NodeGroup.AddNode, hname] using hnames
        · intro w hw
          rcases List.mem_cons.1 hw with h | h
          · subst h; exact hnf
          · exact hnf2 w h

/-- The outer loop: it fails with the error of the first failing node, or appends one
group per hop, in order, each with the selector of its hop when `parseSelector` gives
one and the chain-level selector otherwise. -/
theorem parseHops_cases (env : Env) (lg : dialer.Logger) (selector : Option Selector)
    (hops : List HopConfig) (c : Chain) :
    (∃ err, parseHops env lg selector c hops = .error err ∧
      ∃ hop ∈ hops, ∃ v ∈ hop.Nodes, nodeFailure env lg hop v err) ∨
    (∃ gs, parseHops env lg selector c hops = .ok ⟨c.groups ++ gs⟩ ∧
      List.Forall₂ (fun (hop : HopConfig) (g : NodeGroup) =>
          g.selector = (match env.parseSelector hop.Selector with
            | some s => some s
            | none => selector) ∧
          g.nodes.map Node.Name = hop.Nodes.map NodeConfig.Name) hops gs ∧
      ∀ hop ∈ hops, ∀ v ∈ hop.Nodes, ∀ err, ¬ nodeFailure env lg hop v err) := by
  induction hops generalizing c with
  | nil => exact Or.inr ⟨[], by simp [parseHops], List.Forall₂.nil, by simp⟩
  | cons hop hops ih =>
    rcases parseNodes_cases env lg hop hop.Nodes ⟨[], none⟩ with
      ⟨err, he, v, hv, hf⟩ | ⟨g1, hg, _, hnames, hnf⟩
    · exact Or.inl ⟨err, by simp [parseHops, he], hop, by simp, v, hv, hf⟩
    · rcases ih (c.AddNodeGroup (g1.WithSelector (match env.parseSelector hop.Selector with
          | some s => some s
          | none => selector))) with
        ⟨err, he, hop2, hh, v, hv, hf⟩ | ⟨gs, hgs, hall, hnf2⟩
      · exact Or.inl ⟨err, by simp [parseHops, hg, he], hop2, by simp [hh], v, hv, hf⟩
      · refine Or.inr ⟨(g1.WithSelector (match env.parseSelector hop.Selector with
          | some s => some s
          | none => selector)) :: gs, ?_, ?_, ?_⟩
        · simp only [parseHops, hg, hgs]
          simp [Chain.AddNodeGroup]
        · refine List.Forall₂.cons ⟨rfl, ?_⟩ hall
          simpa [NodeGroup.WithSelector] using hnames
        · intro h2 hh2
          rcases List.mem_cons.1 hh2 with h | h
          · subst h; exact hnf
          · exact hnf2 h2 h

/-- C9: when `ParseChain` builds a chain, the chain has one NodeGroup per configured hop,
in configuration order (the i-th group holds the nodes of the i-th hop, by name and in
order), and the selector of the i-th group is the one `parseSelector` gives for the hop
when that is non-nil, and the one it gives for the chain configuration otherwise. -/
theorem ParseChain_selectors (env : Env) (cfg : ChainConfig) (c : Chain)
    (h : ParseChain env (some cfg) = (some c, none)) :
    c.groups.length = cfg.Hops.length ∧
    ∀ (i : Nat) (h1 : i < cfg.Hops.length) (h2 : i < c.groups.length),
      (c.groups.get ⟨i, h2⟩).selector =
        (match env.parseSelector (cfg.Hops.get ⟨i, h1⟩).Selector with
          | some s => some s
          | none => env.parseSelector cfg.Selector) ∧
      (c.groups.get ⟨i, h2⟩).nodes.map Node.Name
        = (cfg.Hops.get ⟨i, h1⟩).Nodes.map NodeConfig.Name := by
  unfold ParseChain at h
  simp only at h
  rcases parseHops_cases env [("kind", "chain"), ("chain", cfg.Name)]
      (env.parseSelector cfg.Selector) cfg.Hops ⟨[]⟩ with
    ⟨err, he, _⟩ | ⟨gs, hgs, hall, _⟩
  · rw [he] at h; simp at h
  · rw [hgs] at h
    simp at h
    subst h
    have hiff := List.forall₂_iff_get.1 hall
    refine ⟨hiff.1.symm, ?_⟩
    intro i h1 h2
    exact hiff.2 i h1 h2

/-- Witness of C9: one hop without a selector of its own takes the chain-level one. -/
theorem ParseChain_selectors_witness :
    ParseChain brokenEnv (some (oneNodeChain "node-a" "ok.pem"))
      = (some oneNodeChainBuilt, none) ∧
    oneNodeChainBuilt.groups.length = (oneNodeChain "node-a" "ok.pem").Hops.length :=
  ⟨rfl, (ParseChain_selectors brokenEnv (oneNodeChain "node-a" "ok.pem") oneNodeChainBuilt
    rfl).1⟩

/-- C10 fails as stated: two configurations whose failing nodes have different names
get the same error from `ParseChain`, the one the TLS loader returned; nothing in it
tells which node failed. -/
theorem ParseChain_error_counterexample :
    ParseChain brokenEnv (some (oneNodeChain "node-a" "missing.pem"))
      = (none, some "open missing.pem: no such file or directory") ∧
    ParseChain brokenEnv (some (oneNodeChain "node-b" "missing.pem"))
      = (none, some "open missing.pem: no such file or directory") ∧
    (oneNodeChain "node-a" "missing.pem").Hops.map (fun hop => hop.Nodes.map NodeConfig.Name)
      = [["node-a"]] ∧
    (oneNodeChain "node-b" "missing.pem").Hops.map (fun hop => hop.Nodes.map NodeConfig.Name)
      = [["node-b"]] := by
  refine ⟨rfl, rfl, rfl, rfl⟩

/-- C10, amended: if for some node of some hop the TLS loading (for the connector or
for the dialer) or the `Init` of the connector or of the dialer fails, `ParseChain`
returns a nil chain and a non-nil error, whatever was built before; that error is the
one returned by the loader or by `Init` for a failing node of the configuration, handed
back unchanged. -/
theorem ParseChain_all_or_nothing (env : Env) (cfg : ChainConfig)
    (hfail : ∃ hop ∈ cfg.Hops, ∃ v ∈ hop.Nodes, ∃ e,
      nodeFailure env [("kind", "chain"), ("chain", cfg.Name)] hop v e) :
    ∃ err, ParseChain env (some cfg) = (none, some err) ∧
      ∃ hop ∈ cfg.Hops, ∃ v ∈ hop.Nodes,
        nodeFailure env [("kind", "chain"), ("chain", cfg.Name)] hop v err := by
  obtain ⟨hop, hh, v, hv, e, hf⟩ := hfail
  rcases parseHops_cases env [("kind", "chain"), ("chain", cfg.Name)]
      (env.parseSelector cfg.Selector) cfg.Hops ⟨[]⟩ with
    ⟨err, he, hwho⟩ | ⟨gs, _, _, hnf⟩
  · exact ⟨err, by simp [ParseChain, he], hwho⟩
  · exact absurd hf (hnf hop hh v hv e)

/-- Witness of the amended C10: the certificate of the only node cannot be loaded. -/
theorem ParseChain_all_or_nothing_witness :
    ∃ err, ParseChain brokenEnv (some (oneNodeChain "node-a" "missing.pem"))
        = (none, some err) ∧
      ∃ hop ∈ (oneNodeChain "node-a" "missing.pem").Hops, ∃ v ∈ hop.Nodes,
        nodeFailure brokenEnv
          [("kind", "chain"), ("chain", (oneNodeChain "node-a" "missing.pem").Name)]
          hop v err :=
  ParseChain_all_or_nothing brokenEnv (oneNodeChain "node-a" "missing.pem")
    ⟨_, List.mem_cons_self _ _, _, List.mem_cons_self _ _,
      "open missing.pem: no such file or directory", Or.inl rfl⟩

end parsing
